import Mathlib

/-!
Verification of the dino-tracking device-provisioning workflow
(`production_flasherv1.2`): version parsing, eFuse read-back, build
selection, the per-device session state machine, the device watcher,
flash error reporting and the serial monitor, shallowly embedded from
the Python sources.
-/

/-! Primitive models of the Python string operations used by the
repository: `int(str)`, `str.split('.')`, decimal formatting of
integers, and substring search.  The `int` model covers the ASCII
fragment of Python's grammar (optional surrounding whitespace, optional
sign, decimal digits with single underscores between digits), which is
the fragment the repository's inputs can exercise. -/

namespace PyModel

def isPyWs (c : Char) : Bool :=
  c = ' ' || c = '\t' || c = '\n' || c = '\r' || c = '\x0b' || c = '\x0c'

def charVal (c : Char) : Nat := c.toNat - 48

def digitChar (n : Nat) : Char :=
  match n with
  | 0 => '0' | 1 => '1' | 2 => '2' | 3 => '3' | 4 => '4'
  | 5 => '5' | 6 => '6' | 7 => '7' | 8 => '8' | _ => '9'

/-- Decimal digits of a natural number, most significant first;
models Python `str(n)` for a non-negative `int`. -/
def natDigits (n : Nat) : List Char :=
  if h : n < 10 then [digitChar n]
  else natDigits (n / 10) ++ [digitChar (n % 10)]
  decreasing_by
    exact Nat.div_lt_self (by omega) (by omega)

/-- Model of Python `str(i)` for an `int`. -/
def intStr (i : Int) : String :=
  if i < 0 then String.mk ('-' :: natDigits i.natAbs)
  else String.mk (natDigits i.toNat)

/-- Strip leading and trailing whitespace; models `str.strip()` as
performed inside Python `int(str)`. -/
def trimWs (cs : List Char) : List Char :=
  ((cs.dropWhile isPyWs).reverse.dropWhile isPyWs).reverse

/-- Digits with optional single underscores between digits, continuing
an already-seen digit with accumulated value `acc`. -/
def parseUndAux (acc : Nat) : List Char → Option Nat
  | [] => some acc
  | c :: rest =>
    if c = '_' then
      match rest with
      | [] => none
      | d :: rest2 =>
        if d.isDigit then parseUndAux (10 * acc + charVal d) rest2 else none
    else if c.isDigit then parseUndAux (10 * acc + charVal c) rest
    else none

def parseUnd : List Char → Option Nat
  | [] => none
  | c :: rest => if c.isDigit then parseUndAux (charVal c) rest else none

/-- Model of Python `int(s)`: strip whitespace, optional sign, decimal
digits with single underscores allowed between digits. -/
def pyInt (cs : List Char) : Option Int :=
  match trimWs cs with
  | [] => none
  | c :: rest =>
    if c = '+' then (parseUnd rest).map Int.ofNat
    else if c = '-' then (parseUnd rest).map (fun n => -(Int.ofNat n))
    else (parseUnd (c :: rest)).map Int.ofNat

/-- Model of Python `s.split('.')`: split on every dot, keeping empty
pieces. -/
def splitDot : List Char → List (List Char)
  | [] => [[]]
  | c :: rest =>
    if c = '.' then [] :: splitDot rest
    else
      match splitDot rest with
      | [] => [[c]]
      | g :: gs => (c :: g) :: gs

/-- Does `text` begin with `pat`? -/
def beginsWith : List Char → List Char → Bool
  | [], _ => true
  | _ :: _, [] => false
  | p :: ps, t :: ts => p = t && beginsWith ps ts

/-- Model of Python's `pat in text` substring test. -/
def containsSeq (pat : List Char) : List Char → Bool
  | [] => beginsWith pat []
  | t :: ts => beginsWith pat (t :: ts) || containsSeq pat ts

end PyModel

namespace PyModel

theorem charVal_digitChar {n : Nat} (h : n < 10) : charVal (digitChar n) = n := by
  interval_cases n <;> rfl

theorem isDigit_digitChar {n : Nat} (h : n < 10) : (digitChar n).isDigit = true := by
  interval_cases n <;> rfl

theorem digitChar_ne_dot {n : Nat} (h : n < 10) : digitChar n ≠ '.' := by
  interval_cases n <;> decide

theorem natDigits_ne_nil (n : Nat) : natDigits n ≠ [] := by
  rw [natDigits]
  split
  · simp
  · simp

theorem mem_natDigits_isDigit (n : Nat) : ∀ c ∈ natDigits n, c.isDigit = true := by
  induction n using Nat.strong_induction_on with
  | _ n ih =>
    intro c hc
    rw [natDigits] at hc
    split at hc
    · next h =>
      simp at hc
      subst hc
      exact isDigit_digitChar h
    · next h =>
      simp at hc
      rcases hc with hc | hc
      · exact ih (n / 10) (Nat.div_lt_self (by omega) (by omega)) c hc
      · subst hc
        exact isDigit_digitChar (Nat.mod_lt _ (by omega))

theorem mem_natDigits_ne_dot (n : Nat) : ∀ c ∈ natDigits n, c ≠ '.' := by
  intro c hc
  have := mem_natDigits_isDigit n c hc
  intro h
  subst h
  simp at this

/-- Folding the decimal-accumulation step over the digits of `n`
starting from `acc` yields `acc * 10 ^ len + n`. -/
theorem foldl_natDigits (n : Nat) :
    ∀ acc : Nat,
      (natDigits n).foldl (fun a c => 10 * a + charVal c) acc =
        acc * 10 ^ (natDigits n).length + n := by
  induction n using Nat.strong_induction_on with
  | _ n ih =>
    intro acc
    rw [natDigits]
    split
    · next h =>
      simp [charVal_digitChar h]
      ring
    · next h =>
      rw [List.foldl_append]
      rw [ih (n / 10) (Nat.div_lt_self (by omega) (by omega)) acc]
      simp [charVal_digitChar (Nat.mod_lt n (show 0 < 10 by omega))]
      rw [pow_succ]
      have := Nat.div_add_mod n 10
      ring_nf
      omega

theorem natDigits_val (n : Nat) :
    (natDigits n).foldl (fun a c => 10 * a + charVal c) 0 = n := by
  simpa using foldl_natDigits n 0

theorem natDigits_eq_single_zero {n : Nat} (h : natDigits n = ['0']) : n = 0 := by
  have := natDigits_val n
  rw [h] at this
  simpa [charVal] using this.symm

theorem dropWhile_eq_self_of_all {p : Char → Bool} {l : List Char}
    (h : ∀ c ∈ l, p c = false) : l.dropWhile p = l := by
  cases l with
  | nil => rfl
  | cons c rest =>
    rw [List.dropWhile_cons]
    simp [h c (by simp)]

theorem trimWs_eq_self {l : List Char} (h : ∀ c ∈ l, isPyWs c = false) :
    trimWs l = l := by
  unfold trimWs
  rw [dropWhile_eq_self_of_all h]
  rw [dropWhile_eq_self_of_all (by intro c hc; exact h c (by simpa using hc))]
  simp

theorem isPyWs_digit {c : Char} (h : c.isDigit = true) : isPyWs c = false := by
  by_contra hw
  rw [Bool.not_eq_false] at hw
  simp only [isPyWs, Bool.or_eq_true, decide_eq_true_eq] at hw
  rcases hw with ((((h1 | h1) | h1) | h1) | h1) | h1 <;>
    (subst h1; exact absurd h (by decide))

theorem parseUndAux_digits {l : List Char} (hd : ∀ c ∈ l, c.isDigit = true) :
    ∀ acc, parseUndAux acc l = some (l.foldl (fun a c => 10 * a + charVal c) acc) := by
  induction l with
  | nil => intro acc; rfl
  | cons c rest ih =>
    intro acc
    have hc : c.isDigit = true := hd c (by simp)
    have hcu : c ≠ '_' := by
      intro h; subst h; simp [Char.isDigit] at hc
    rw [parseUndAux.eq_def]
    simp only []
    rw [if_neg hcu, if_pos hc]
    rw [ih (by intro x hx; exact hd x (by simp [hx]))]
    simp

theorem parseUnd_natDigits (n : Nat) : parseUnd (natDigits n) = some n := by
  rcases hne : natDigits n with _ | ⟨c, rest⟩
  · exact absurd hne (natDigits_ne_nil n)
  · have hall := mem_natDigits_isDigit n
    rw [hne] at hall
    have hc : c.isDigit = true := hall c (by simp)
    rw [parseUnd, if_pos hc]
    rw [parseUndAux_digits (by intro x hx; exact hall x (by simp [hx]))]
    have := natDigits_val n
    rw [hne] at this
    simp only [List.foldl_cons, Nat.mul_zero, Nat.zero_add] at this
    rw [this]

theorem pyInt_natDigits (n : Nat) : pyInt (natDigits n) = some (Int.ofNat n) := by
  have htrim : trimWs (natDigits n) = natDigits n :=
    trimWs_eq_self (by intro c hc; exact isPyWs_digit (mem_natDigits_isDigit n c hc))
  rcases hne : natDigits n with _ | ⟨c, rest⟩
  · exact absurd hne (natDigits_ne_nil n)
  · have hall := mem_natDigits_isDigit n
    rw [hne] at hall htrim
    have hc : c.isDigit = true := hall c (by simp)
    have hplus : c ≠ '+' := by intro h; subst h; simp [Char.isDigit] at hc
    have hminus : c ≠ '-' := by intro h; subst h; simp [Char.isDigit] at hc
    rw [pyInt, htrim]
    simp only [if_neg hplus, if_neg hminus]
    have := parseUnd_natDigits n
    rw [hne] at this
    rw [this]
    rfl

end PyModel

namespace PyModel

theorem splitDot_ne_nil (l : List Char) : splitDot l ≠ [] := by
  cases l with
  | nil => simp [splitDot]
  | cons c rest =>
    rw [splitDot]
    split
    · simp
    · split <;> simp

theorem splitDot_no_dot {l : List Char} (h : ∀ c ∈ l, c ≠ '.') :
    splitDot l = [l] := by
  induction l with
  | nil => rfl
  | cons c rest ih =>
    rw [splitDot, if_neg (h c (by simp))]
    rw [ih (by intro x hx; exact h x (by simp [hx]))]

theorem splitDot_append {l : List Char} (r : List Char)
    (h : ∀ c ∈ l, c ≠ '.') :
    splitDot (l ++ '.' :: r) = l :: splitDot r := by
  induction l with
  | nil =>
    simp only [List.nil_append]
    rw [splitDot, if_pos rfl]
  | cons c rest ih =>
    simp only [List.cons_append]
    rw [splitDot, if_neg (h c (by simp))]
    rw [ih (by intro x hx; exact h x (by simp [hx]))]

end PyModel

/-! Version formatting shared by the flashers: the Python sources render
a parsed version back to text with an f-string of the three components,
as in `read_efuse_version`'s `f"{major}.{minor}.{patch}"`. -/

def format_version (a b c : Int) : String :=
  PyModel.intStr a ++ "." ++ PyModel.intStr b ++ "." ++ PyModel.intStr c

namespace GuiFlasher

/-- Embedding of `gui_flasher.parse_version` (also
`partner_flasher.parse_version`): split on dots, require exactly three
pieces, convert each with Python `int`; any conversion failure yields
`None`.  There is no range check on the components. -/
def parse_version (s : String) : Option (Int × Int × Int) :=
  match PyModel.splitDot s.data with
  | [p1, p2, p3] =>
    match PyModel.pyInt p1, PyModel.pyInt p2, PyModel.pyInt p3 with
    | some a, some b, some c => some (a, b, c)
    | _, _, _ => none
  | _ => none

end GuiFlasher

namespace DinoConsole

/-- Embedding of `dino_console.DinoConsole.parse_version`: like the GUI
parser but additionally requires each component to lie in [0, 255],
returning `None` otherwise. -/
def parse_version (s : String) : Option (Int × Int × Int) :=
  match PyModel.splitDot s.data with
  | [p1, p2, p3] =>
    match PyModel.pyInt p1, PyModel.pyInt p2, PyModel.pyInt p3 with
    | some a, some b, some c =>
      if 0 ≤ a ∧ a ≤ 255 ∧ 0 ≤ b ∧ b ≤ 255 ∧ 0 ≤ c ∧ c ≤ 255 then
        some (a, b, c)
      else none
    | _, _, _ => none
  | _ => none

end DinoConsole

section VersionLemmas

open PyModel

theorem intStr_nonneg_data {a : Int} (h : 0 ≤ a) :
    (intStr a).data = natDigits a.toNat := by
  rw [intStr, if_neg (by omega)]

theorem format_version_data {a b c : Int} (ha : 0 ≤ a) (hb : 0 ≤ b)
    (hc : 0 ≤ c) :
    (format_version a b c).data =
      natDigits a.toNat ++ '.' :: (natDigits b.toNat ++ '.' :: natDigits c.toNat) := by
  rw [format_version]
  simp only [String.data_append, intStr_nonneg_data ha, intStr_nonneg_data hb,
    intStr_nonneg_data hc]
  simp

theorem splitDot_format_version {a b c : Int} (ha : 0 ≤ a) (hb : 0 ≤ b)
    (hc : 0 ≤ c) :
    splitDot (format_version a b c).data =
      [natDigits a.toNat, natDigits b.toNat, natDigits c.toNat] := by
  rw [format_version_data ha hb hc]
  rw [splitDot_append _ (mem_natDigits_ne_dot _)]
  rw [splitDot_append _ (mem_natDigits_ne_dot _)]
  rw [splitDot_no_dot (mem_natDigits_ne_dot _)]

theorem pyInt_natDigits_toNat {a : Int} (h : 0 ≤ a) :
    pyInt (natDigits a.toNat) = some a := by
  rw [pyInt_natDigits]
  simp [Int.toNat_of_nonneg h]

theorem gui_parse_format {a b c : Int} (ha : 0 ≤ a) (hb : 0 ≤ b) (hc : 0 ≤ c) :
    GuiFlasher.parse_version (format_version a b c) = some (a, b, c) := by
  rw [GuiFlasher.parse_version, splitDot_format_version ha hb hc]
  simp only [pyInt_natDigits_toNat ha, pyInt_natDigits_toNat hb,
    pyInt_natDigits_toNat hc]

theorem dino_parse_format {a b c : Int} (ha : 0 ≤ a) (ha2 : a ≤ 255)
    (hb : 0 ≤ b) (hb2 : b ≤ 255) (hc : 0 ≤ c) (hc2 : c ≤ 255) :
    DinoConsole.parse_version (format_version a b c) = some (a, b, c) := by
  rw [DinoConsole.parse_version, splitDot_format_version ha hb hc]
  simp only [pyInt_natDigits_toNat ha, pyInt_natDigits_toNat hb,
    pyInt_natDigits_toNat hc]
  rw [if_pos (by exact ⟨ha, ha2, hb, hb2, hc, hc2⟩)]

theorem gui_parse_shape {s : String}
    (h : (PyModel.splitDot s.data).length ≠ 3) :
    GuiFlasher.parse_version s = none := by
  rw [GuiFlasher.parse_version]
  rcases hl : PyModel.splitDot s.data with _ | ⟨x, _ | ⟨y, _ | ⟨z, _ | ⟨w, t⟩⟩⟩⟩ <;>
    rw [hl] at h <;> first | rfl | simp at h

theorem dino_parse_shape {s : String}
    (h : (PyModel.splitDot s.data).length ≠ 3) :
    DinoConsole.parse_version s = none := by
  rw [DinoConsole.parse_version]
  rcases hl : PyModel.splitDot s.data with _ | ⟨x, _ | ⟨y, _ | ⟨z, _ | ⟨w, t⟩⟩⟩⟩ <;>
    rw [hl] at h <;> first | rfl | simp at h

theorem dino_parse_range {s : String} {a b c : Int}
    (h : DinoConsole.parse_version s = some (a, b, c)) :
    0 ≤ a ∧ a ≤ 255 ∧ 0 ≤ b ∧ b ≤ 255 ∧ 0 ≤ c ∧ c ≤ 255 := by
  rw [DinoConsole.parse_version] at h
  rcases hl : PyModel.splitDot s.data with _ | ⟨x, _ | ⟨y, _ | ⟨z, _ | ⟨w, t⟩⟩⟩⟩ <;>
    rw [hl] at h <;> try simp at h
  obtain ⟨a1, hx⟩ : ∃ v, PyModel.pyInt x = some v := by
    rcases hx : PyModel.pyInt x with _ | v
    · rw [hx] at h; simp at h
    · exact ⟨v, rfl⟩
  obtain ⟨b1, hy⟩ : ∃ v, PyModel.pyInt y = some v := by
    rcases hy : PyModel.pyInt y with _ | v
    · rw [hx, hy] at h; simp at h
    · exact ⟨v, rfl⟩
  obtain ⟨c1, hz⟩ : ∃ v, PyModel.pyInt z = some v := by
    rcases hz : PyModel.pyInt z with _ | v
    · rw [hx, hy, hz] at h; simp at h
    · exact ⟨v, rfl⟩
  rw [hx, hy, hz] at h
  simp only [] at h
  split at h
  · next hr =>
    simp only [Option.some.injEq, Prod.mk.injEq] at h
    obtain ⟨h1, h2, h3⟩ := h
    subst h1; subst h2; subst h3
    exact hr
  · simp at h

theorem gui_parse_piece_fail {s : String} {p1 p2 p3 : List Char}
    (hl : PyModel.splitDot s.data = [p1, p2, p3])
    (h : PyModel.pyInt p1 = none ∨ PyModel.pyInt p2 = none ∨
      PyModel.pyInt p3 = none) :
    GuiFlasher.parse_version s = none := by
  rw [GuiFlasher.parse_version, hl]
  rcases hx : PyModel.pyInt p1 with _ | a <;>
    rcases hy : PyModel.pyInt p2 with _ | b <;>
      rcases hz : PyModel.pyInt p3 with _ | c <;>
        simp_all

theorem dino_parse_piece_fail {s : String} {p1 p2 p3 : List Char}
    (hl : PyModel.splitDot s.data = [p1, p2, p3])
    (h : PyModel.pyInt p1 = none ∨ PyModel.pyInt p2 = none ∨
      PyModel.pyInt p3 = none) :
    DinoConsole.parse_version s = none := by
  rw [DinoConsole.parse_version, hl]
  rcases hx : PyModel.pyInt p1 with _ | a <;>
    rcases hy : PyModel.pyInt p2 with _ | b <;>
      rcases hz : PyModel.pyInt p3 with _ | c <;>
        simp_all

end VersionLemmas

/-- C5 counterexample: the claim says a component outside [0,255] makes
parsing fail, but `gui_flasher.parse_version` (a cited source of the
claim) accepts "1.999.0" and returns the partial-range triple
(1, 999, 0) instead of a failure value. -/
theorem parse_version_out_of_range_accepted :
    GuiFlasher.parse_version "1.999.0" = some (1, 999, 0) ∧ (999 : Int) > 255 := by
  constructor
  · decide
  · decide

/-- C5 (amended): for all components in [0, 255], rendering the version
as "X.Y.Z" and parsing it back yields exactly the same triple (hence
parse-then-format is the identity on such strings) for both
`gui_flasher.parse_version` and `dino_console.parse_version`; any string
that does not split into exactly three dot-separated integer pieces is
rejected by both — whether because the dot count is wrong or because
some piece is not a Python integer; and `dino_console.parse_version`
only ever returns components in [0, 255].  `gui_flasher.parse_version`,
however, enforces no range: it accepts any three integer components
(see the counterexample). -/
theorem parse_version_roundtrip_shape_range :
    (∀ a b c : Int, 0 ≤ a → a ≤ 255 → 0 ≤ b → b ≤ 255 → 0 ≤ c → c ≤ 255 →
      GuiFlasher.parse_version (format_version a b c) = some (a, b, c) ∧
      DinoConsole.parse_version (format_version a b c) = some (a, b, c)) ∧
    (∀ s : String, (PyModel.splitDot s.data).length ≠ 3 →
      GuiFlasher.parse_version s = none ∧ DinoConsole.parse_version s = none) ∧
    (∀ (s : String) (p1 p2 p3 : List Char),
      PyModel.splitDot s.data = [p1, p2, p3] →
      (PyModel.pyInt p1 = none ∨ PyModel.pyInt p2 = none ∨
        PyModel.pyInt p3 = none) →
      GuiFlasher.parse_version s = none ∧ DinoConsole.parse_version s = none) ∧
    (∀ (s : String) (a b c : Int), DinoConsole.parse_version s = some (a, b, c) →
      0 ≤ a ∧ a ≤ 255 ∧ 0 ≤ b ∧ b ≤ 255 ∧ 0 ≤ c ∧ c ≤ 255) := by
  refine ⟨?_, ?_, ?_, ?_⟩
  · intro a b c ha ha2 hb hb2 hc hc2
    exact ⟨gui_parse_format ha hb hc, dino_parse_format ha ha2 hb hb2 hc hc2⟩
  · intro s h
    exact ⟨gui_parse_shape h, dino_parse_shape h⟩
  · intro s p1 p2 p3 hl h
    exact ⟨gui_parse_piece_fail hl h, dino_parse_piece_fail hl h⟩
  · intro s a b c h
    exact dino_parse_range h

/-- C5 witness: the round trip at version 1.9.1, the shape failure at
"1.2.3.4", and the non-integer-piece failure at "1.2.x", instantiating
the amended theorem. -/
theorem parse_version_roundtrip_shape_range_instance :
    GuiFlasher.parse_version (format_version 1 9 1) = some (1, 9, 1) ∧
    DinoConsole.parse_version "1.2.3.4" = none ∧
    GuiFlasher.parse_version "1.2.x" = none ∧
    DinoConsole.parse_version "1.2.x" = none :=
  ⟨(parse_version_roundtrip_shape_range.1 1 9 1 (by decide) (by decide)
      (by decide) (by decide) (by decide) (by decide)).1,
   (parse_version_roundtrip_shape_range.2.1 "1.2.3.4" (by decide)).2,
   (parse_version_roundtrip_shape_range.2.2.1 "1.2.x" ['1'] ['2'] ['x']
      (by decide) (Or.inr (Or.inr (by decide)))).1,
   (parse_version_roundtrip_shape_range.2.2.1 "1.2.x" ['1'] ['2'] ['x']
      (by decide) (Or.inr (Or.inr (by decide)))).2⟩

namespace GuiFlasher

/-- Value of a character under the regex class [0-9a-f] with
re.IGNORECASE (so A-F match as well). -/
def hexVal (c : Char) : Option Nat :=
  if c.isDigit then some (c.toNat - 48)
  else if 'a' ≤ c ∧ c ≤ 'f' then some (c.toNat - 87)
  else if 'A' ≤ c ∧ c ≤ 'F' then some (c.toNat - 55)
  else none

/-- One regex group ([0-9a-f]\x7b2\x7d): exactly two hex digits, returning
the byte value and the remaining text. -/
def hexPair : List Char → Option (Nat × List Char)
  | a :: b :: rest =>
    match hexVal a, hexVal b with
    | some x, some y => some (16 * x + y, rest)
    | _, _ => none
  | _ => none

/-- The part of the eFuse-summary regex after the equals sign:
three hex-byte groups separated by \s*.  Whitespace and hex digits are
disjoint classes, so the greedy \s* never needs backtracking. -/
def afterEq (cs : List Char) : Option (Nat × Nat × Nat) :=
  match hexPair (cs.dropWhile PyModel.isPyWs) with
  | none => none
  | some (v1, r1) =>
    match hexPair (r1.dropWhile PyModel.isPyWs) with
    | none => none
    | some (v2, r2) =>
      match hexPair (r2.dropWhile PyModel.isPyWs) with
      | none => none
      | some (v3, _) => some (v1, v2, v3)

/-- The lazy gap of the regex: .*? with re.DOTALL followed by '=' and
the hex-byte groups; candidate '=' positions are tried left to right,
matching the lazy quantifier's preference for shorter gaps. -/
def eqScan : List Char → Option (Nat × Nat × Nat)
  | [] => none
  | c :: rest => (if c = '=' then afterEq rest else none) <|> eqScan rest

/-- The literal part of the summary regex. -/
def litChars : List Char := "BLOCK_USR_DATA (BLOCK3)".data

/-- Case-insensitive literal match returning the remainder of the text. -/
def matchCI : List Char → List Char → Option (List Char)
  | [], text => some text
  | _ :: _, [] => none
  | p :: ps, t :: ts => if p.toLower = t.toLower then matchCI ps ts else none

/-- Model of re.search for the eFuse-summary pattern
BLOCK_USR_DATA \(BLOCK3\).*?=\s*hex\s*hex\s*hex with DOTALL and
IGNORECASE: start positions are tried left to right and the first one
whose whole pattern completes wins. -/
def searchBlock : List Char → Option (Nat × Nat × Nat)
  | [] => none
  | c :: ts =>
    (match matchCI litChars (c :: ts) with
     | some rem => eqScan rem
     | none => none) <|> searchBlock ts

/-- Embedding of `gui_flasher.read_efuse_version` (identical in
`partner_flasher`) as a function of the espefuse summary subprocess's
exit code and captured stdout: a nonzero exit, a missing
BLOCK_USR_DATA pattern, and a decoded 0.0.0 all yield `None`;
otherwise the three bytes are rendered as "major.minor.patch". -/
def read_efuse_version (returncode : Int) (stdout : String) : Option String :=
  if returncode ≠ 0 then none
  else
    match searchBlock stdout.data with
    | some (major, minor, patch) =>
      if major = 0 ∧ minor = 0 ∧ patch = 0 then none
      else some (format_version major minor patch)
    | none => none

end GuiFlasher

theorem format_version_nat_eq_zero_string {a b c : Nat}
    (h : format_version a b c = "0.0.0") : a = 0 ∧ b = 0 ∧ c = 0 := by
  have hd := congrArg String.data h
  have hs := congrArg PyModel.splitDot hd
  rw [splitDot_format_version (by omega) (by omega) (by omega)] at hs
  have hz : PyModel.splitDot ("0.0.0" : String).data = [['0'], ['0'], ['0']] := by
    decide
  rw [hz] at hs
  injection hs with h1 hs2
  injection hs2 with h2 hs3
  injection hs3 with h3 hs4
  have hca : ((a : ℤ)).toNat = a := by simp
  have hcb : ((b : ℤ)).toNat = b := by simp
  have hcc : ((c : ℤ)).toNat = c := by simp
  rw [hca] at h1
  rw [hcb] at h2
  rw [hcc] at h3
  exact ⟨PyModel.natDigits_eq_single_zero h1, PyModel.natDigits_eq_single_zero h2,
    PyModel.natDigits_eq_single_zero h3⟩

/-- C4: `read_efuse_version` returns `None` whenever the vendor summary
command exits nonzero, or the BLOCK_USR_DATA pattern is absent from its
output, or the three decoded bytes are all zero; consequently it can
never return the zero version string "0.0.0", so an erased device is
indistinguishable from one with nothing written. -/
theorem read_efuse_version_none_cases :
    (∀ (rc : Int) (out : String),
      (rc ≠ 0 ∨ GuiFlasher.searchBlock out.data = none ∨
        GuiFlasher.searchBlock out.data = some (0, 0, 0)) →
      GuiFlasher.read_efuse_version rc out = none) ∧
    (∀ (rc : Int) (out v : String),
      GuiFlasher.read_efuse_version rc out = some v → v ≠ "0.0.0") := by
  constructor
  · intro rc out h
    rw [GuiFlasher.read_efuse_version]
    rcases h with h | h | h
    · rw [if_pos h]
    · by_cases hrc : rc ≠ 0
      · rw [if_pos hrc]
      · rw [if_neg hrc, h]
    · by_cases hrc : rc ≠ 0
      · rw [if_pos hrc]
      · rw [if_neg hrc, h]
        simp
  · intro rc out v h hv
    subst hv
    rw [GuiFlasher.read_efuse_version] at h
    by_cases hrc : rc ≠ 0
    · rw [if_pos hrc] at h
      exact absurd h (by simp)
    · rw [if_neg hrc] at h
      rcases hsb : GuiFlasher.searchBlock out.data with _ | ⟨a, b, c⟩
      · rw [hsb] at h
        exact absurd h (by simp)
      · rw [hsb] at h
        change (if a = 0 ∧ b = 0 ∧ c = 0 then none
                else some (format_version a b c)) = some "0.0.0" at h
        by_cases hz : a = 0 ∧ b = 0 ∧ c = 0
        · rw [if_pos hz] at h
          exact absurd h (by simp)
        · rw [if_neg hz] at h
          rw [Option.some.injEq] at h
          exact hz (format_version_nat_eq_zero_string h)

/-- C4 witness: a failed summary command (exit code 1) yields no
version, instantiating the first part of the theorem. -/
theorem read_efuse_version_none_cases_instance :
    GuiFlasher.read_efuse_version 1 "" = none :=
  read_efuse_version_none_cases.1 1 "" (Or.inl (by decide))

namespace GuiFlasher

/-- Provisioning mode selected by the operator; the scanner only ever
spawns workers with "production" or "testing". -/
inductive Mode
  | production
  | testing
deriving DecidableEq

/-- Observable actions of one device session, abstracting the worker's
external effects: the espefuse burn invocation, the espefuse summary
read, the firmware download for a version, the esptool flash invocation
for a version, attaching the serial monitor, and the audible error tone
that accompanies every failure report. -/
inductive Act
  | burn
  | read
  | fetch (version : String)
  | flash (version : String)
  | monitor
  | errTone
deriving DecidableEq

/-- Results of the session's external interactions: whether the burn
subprocess exits zero, what `read_efuse_version` returns, and whether
the download and the esptool flash succeed for a given version. -/
structure Env where
  burnOk : Bool
  readResult : Option String
  downloadOk : String → Bool
  flashOk : String → Bool

/-- Embedding of `gui_flasher.flash_device` at the action level: clear
the cache and download firmware for the version (the fetch); on
download failure report failure without ever invoking esptool; otherwise
invoke esptool (the flash) and report its outcome. -/
def flash_device (env : Env) (version : String) : Bool × List Act :=
  if env.downloadOk version then
    (env.flashOk version, [Act.fetch version, Act.flash version])
  else
    (false, [Act.fetch version])

/-- The common tail of `process_device_thread` (gui_flasher lines
297-310): if a truthy hardware version was selected, flash and then
either attach the monitor or report failure; otherwise report failure.
Python truthiness makes the empty string falsy. -/
def session_tail (env : Env) (selected : Option String) : List Act :=
  match selected with
  | some v =>
    if v = "" then [Act.errTone]
    else
      let r := flash_device env v
      r.2 ++ (if r.1 then [Act.monitor] else [Act.errTone])
  | none => [Act.errTone]

/-- Embedding of `gui_flasher.process_device_thread` as the list of
session actions.  Testing mode burns, then on burn success verifies by
reading back and aborts on mismatch; on burn failure it reads the
existing version and falls back to it, aborting only if none is found.
Production mode reads and aborts when no version is found. -/
def process_device_thread (mode : Mode) (target : String) (env : Env) : List Act :=
  match mode with
  | Mode.testing =>
    if env.burnOk then
      Act.burn :: Act.read ::
        (if env.readResult = some target then session_tail env (some target)
         else [Act.errTone])
    else
      Act.burn :: Act.read ::
        (match env.readResult with
         | some v => if v = "" then [Act.errTone] else session_tail env (some v)
         | none => [Act.errTone])
  | Mode.production =>
    Act.read ::
      (match env.readResult with
       | some v => if v = "" then [Act.errTone] else session_tail env (some v)
       | none => [Act.errTone])

theorem flash_not_in_session_tail_other {env : Env} {v w : String}
    (hne : w ≠ v) :
    Act.flash w ∉ session_tail env (some v) ∧
    Act.fetch w ∉ session_tail env (some v) := by
  rw [session_tail]
  by_cases hv : v = ""
  · rw [if_pos hv]
    simp
  · rw [if_neg hv]
    rw [flash_device]
    by_cases hd : env.downloadOk v
    · rw [if_pos hd]
      by_cases hf : env.flashOk v
      · simp [hf, hne]
      · simp [hf, hne]
    · rw [if_neg hd]
      simp [hne]

end GuiFlasher

/-- C1: in testing mode, when the burn command succeeds but the read
back eFuse value is anything other than exactly the target version
(including no value at all), the session performs only the burn, the
verification read, and the failure report: it is aborted and the
flasher (download and esptool invocation) never runs. -/
theorem testing_verify_mismatch_aborts (target : String) (env : GuiFlasher.Env)
    (hb : env.burnOk = true) (hm : env.readResult ≠ some target) :
    GuiFlasher.process_device_thread GuiFlasher.Mode.testing target env =
      [GuiFlasher.Act.burn, GuiFlasher.Act.read, GuiFlasher.Act.errTone] ∧
    ∀ v, GuiFlasher.Act.flash v ∉
      GuiFlasher.process_device_thread GuiFlasher.Mode.testing target env ∧
      GuiFlasher.Act.fetch v ∉
        GuiFlasher.process_device_thread GuiFlasher.Mode.testing target env := by
  have htr : GuiFlasher.process_device_thread GuiFlasher.Mode.testing target env =
      [GuiFlasher.Act.burn, GuiFlasher.Act.read, GuiFlasher.Act.errTone] := by
    rw [GuiFlasher.process_device_thread]
    rw [if_pos hb, if_neg hm]
  refine ⟨htr, ?_⟩
  intro v
  rw [htr]
  simp

/-- C1 witness: burn succeeded but the device read back 1.8.0 against
target 1.9.1, so the session aborts without flashing. -/
theorem testing_verify_mismatch_aborts_instance :
    GuiFlasher.process_device_thread GuiFlasher.Mode.testing "1.9.1"
      { burnOk := true, readResult := some "1.8.0",
        downloadOk := fun _ => true, flashOk := fun _ => true } =
      [GuiFlasher.Act.burn, GuiFlasher.Act.read, GuiFlasher.Act.errTone] :=
  (testing_verify_mismatch_aborts "1.9.1" _ rfl (by decide)).1

/-- C2: in testing mode, when the burn command fails and the follow-up
read finds an existing version E (Python-truthy, hence nonempty), the
session is not aborted: it proceeds to fetch (and, if the download
succeeds, flash) firmware for E, and never fetches or flashes the
originally requested target when E differs from it. -/
theorem testing_burn_fail_fallback (target e : String) (env : GuiFlasher.Env)
    (hb : env.burnOk = false) (hr : env.readResult = some e) (he : e ≠ "") :
    GuiFlasher.process_device_thread GuiFlasher.Mode.testing target env =
      GuiFlasher.Act.burn :: GuiFlasher.Act.read ::
        GuiFlasher.session_tail env (some e) ∧
    GuiFlasher.Act.fetch e ∈
      GuiFlasher.process_device_thread GuiFlasher.Mode.testing target env ∧
    (e ≠ target →
      GuiFlasher.Act.fetch target ∉
        GuiFlasher.process_device_thread GuiFlasher.Mode.testing target env ∧
      GuiFlasher.Act.flash target ∉
        GuiFlasher.process_device_thread GuiFlasher.Mode.testing target env) := by
  have htr : GuiFlasher.process_device_thread GuiFlasher.Mode.testing target env =
      GuiFlasher.Act.burn :: GuiFlasher.Act.read ::
        GuiFlasher.session_tail env (some e) := by
    rw [GuiFlasher.process_device_thread]
    rw [if_neg (by simp [hb]), hr]
    simp [he]
  refine ⟨htr, ?_, ?_⟩
  · rw [htr]
    rw [GuiFlasher.session_tail, if_neg he, GuiFlasher.flash_device]
    by_cases hd : env.downloadOk e
    · rw [if_pos hd]
      simp
    · rw [if_neg hd]
      simp
  · intro hne
    rw [htr]
    have := @GuiFlasher.flash_not_in_session_tail_other
      env e target (fun h => hne h.symm)
    constructor
    · simp only [List.mem_cons, not_or]
      exact ⟨by simp, by simp, this.2⟩
    · simp only [List.mem_cons, not_or]
      exact ⟨by simp, by simp, this.1⟩

/-- C2 witness: burn fails, the device already carries 1.8.0, and the
session fetches firmware for 1.8.0 rather than the requested 1.9.1. -/
theorem testing_burn_fail_fallback_instance :
    GuiFlasher.Act.fetch "1.8.0" ∈
      GuiFlasher.process_device_thread GuiFlasher.Mode.testing "1.9.1"
        { burnOk := false, readResult := some "1.8.0",
          downloadOk := fun _ => true, flashOk := fun _ => true } ∧
    GuiFlasher.Act.fetch "1.9.1" ∉
      GuiFlasher.process_device_thread GuiFlasher.Mode.testing "1.9.1"
        { burnOk := false, readResult := some "1.8.0",
          downloadOk := fun _ => true, flashOk := fun _ => true } :=
  ⟨(testing_burn_fail_fallback "1.9.1" "1.8.0" _ rfl rfl (by decide)).2.1,
   ((testing_burn_fail_fallback "1.9.1" "1.8.0" _ rfl rfl
      (by decide)).2.2 (by decide)).1⟩

/-- C3: a production-mode session whose eFuse read returns no version
performs only the read and the failure report; the flasher is never
invoked, so flashing can only ever happen after a version is known. -/
theorem production_no_version_never_flashes (target : String)
    (env : GuiFlasher.Env) (hr : env.readResult = none) :
    GuiFlasher.process_device_thread GuiFlasher.Mode.production target env =
      [GuiFlasher.Act.read, GuiFlasher.Act.errTone] ∧
    ∀ v, GuiFlasher.Act.flash v ∉
      GuiFlasher.process_device_thread GuiFlasher.Mode.production target env ∧
      GuiFlasher.Act.fetch v ∉
        GuiFlasher.process_device_thread GuiFlasher.Mode.production target env := by
  have htr : GuiFlasher.process_device_thread GuiFlasher.Mode.production target env =
      [GuiFlasher.Act.read, GuiFlasher.Act.errTone] := by
    rw [GuiFlasher.process_device_thread, hr]
  refine ⟨htr, ?_⟩
  intro v
  rw [htr]
  simp

/-- C3 witness: a production session on a blank device reads, fails,
and never flashes. -/
theorem production_no_version_never_flashes_instance :
    GuiFlasher.process_device_thread GuiFlasher.Mode.production "1.9.1"
      { burnOk := true, readResult := none,
        downloadOk := fun _ => true, flashOk := fun _ => true } =
      [GuiFlasher.Act.read, GuiFlasher.Act.errTone] :=
  (production_no_version_never_flashes "1.9.1" _ rfl).1

/-- Registry build metadata as returned by the DinoCore API: id, name,
creation timestamp, and the list of hardware-version strings the build
declares compatibility with.  `created_at` is modelled as a natural
number; the source only requires it to be an ordered sort key. -/
structure Build where
  id : Nat
  name : String
  created_at : Nat
  supported_versions : List String
deriving DecidableEq

namespace GuiFlasher

/-- Model of Python `max(list, key=created_at)`: scan left to right and
replace the current maximum only on a strictly greater key, so the
first maximal element wins ties. -/
def pymaxByCreated : List Build → Option Build
  | [] => none
  | b :: bs =>
    some (bs.foldl (fun acc x => if acc.created_at < x.created_at then x else acc) b)

/-- Embedding of the build-selection core of
`gui_flasher.download_firmware`: filter the fetched list to builds whose
supported-version list contains the target version string, fail when
none remain, otherwise take the build with the greatest creation
timestamp. -/
def download_firmware_selection (builds : List Build) (hv : String) : Option Build :=
  if (builds.filter (fun b => b.supported_versions.contains hv)).isEmpty then none
  else pymaxByCreated (builds.filter (fun b => b.supported_versions.contains hv))

end GuiFlasher

namespace AutoFlasher

/-- Stable descending insertion by creation timestamp: an element is
placed before the first element whose key is not greater, so
equal-key elements keep their original relative order.  This models
Python's stable `list.sort(key=created_at, reverse=True)`. -/
def insertByDesc (a : Build) : List Build → List Build
  | [] => [a]
  | x :: xs =>
    if a.created_at < x.created_at then x :: insertByDesc a xs
    else a :: x :: xs

def sortByDesc : List Build → List Build
  | [] => []
  | a :: rest => insertByDesc a (sortByDesc rest)

/-- Embedding of `auto_flasher.find_build_for_version`: fail on an empty
registry, filter to compatible builds, fail when none remain, otherwise
sort newest-first and take the head. -/
def find_build_for_version (builds : List Build) (hv : String) : Option Build :=
  if builds.isEmpty then none
  else if (builds.filter (fun b => b.supported_versions.contains hv)).isEmpty then
    none
  else (sortByDesc (builds.filter (fun b => b.supported_versions.contains hv))).head?

theorem mem_insertByDesc {a x : Build} {l : List Build} :
    x ∈ insertByDesc a l ↔ x = a ∨ x ∈ l := by
  induction l with
  | nil => simp [insertByDesc]
  | cons y ys ih =>
    rw [insertByDesc]
    by_cases h : a.created_at < y.created_at
    · rw [if_pos h]
      simp [ih]
      tauto
    · rw [if_neg h]
      simp

theorem mem_sortByDesc {x : Build} {l : List Build} :
    x ∈ sortByDesc l ↔ x ∈ l := by
  induction l with
  | nil => simp [sortByDesc]
  | cons a rest ih =>
    rw [sortByDesc, mem_insertByDesc]
    simp [ih]

theorem sortByDesc_head_max {l : List Build} {m : Build}
    (hm : (sortByDesc l).head? = some m) :
    m ∈ l ∧ ∀ y ∈ l, y.created_at ≤ m.created_at := by
  induction l generalizing m with
  | nil => simp [sortByDesc] at hm
  | cons a rest ih =>
    rw [sortByDesc] at hm
    rcases hs : sortByDesc rest with _ | ⟨p, ps⟩
    · rw [hs] at hm
      rw [insertByDesc] at hm
      simp at hm
      subst hm
      refine ⟨by simp, ?_⟩
      intro y hy
      rcases List.mem_cons.mp hy with h | h
      · subst h; omega
      · have : y ∈ sortByDesc rest := mem_sortByDesc.mpr h
        rw [hs] at this
        simp at this
    · rw [hs] at hm
      have hp := ih (m := p) (by rw [hs]; rfl)
      rw [insertByDesc] at hm
      by_cases h : a.created_at < p.created_at
      · rw [if_pos h] at hm
        simp at hm
        subst hm
        refine ⟨List.mem_cons_of_mem a hp.1, ?_⟩
        intro y hy
        rcases List.mem_cons.mp hy with h2 | h2
        · subst h2; omega
        · exact hp.2 y h2
      · rw [if_neg h] at hm
        simp at hm
        subst hm
        refine ⟨by simp, ?_⟩
        intro y hy
        rcases List.mem_cons.mp hy with h2 | h2
        · subst h2; omega
        · have := hp.2 y h2
          omega

end AutoFlasher

namespace GuiFlasher

theorem foldl_maxByCreated (l : List Build) :
    ∀ x : Build,
      ((l.foldl (fun acc b => if acc.created_at < b.created_at then b else acc) x)
          = x ∨
        (l.foldl (fun acc b => if acc.created_at < b.created_at then b else acc) x)
          ∈ l) ∧
      x.created_at ≤
        (l.foldl (fun acc b => if acc.created_at < b.created_at then b else acc)
          x).created_at ∧
      ∀ y ∈ l, y.created_at ≤
        (l.foldl (fun acc b => if acc.created_at < b.created_at then b else acc)
          x).created_at := by
  induction l with
  | nil => intro x; simp
  | cons b bs ih =>
    intro x
    rw [List.foldl_cons]
    by_cases h : x.created_at < b.created_at
    · rw [if_pos h]
      obtain ⟨hmem, hx, hall⟩ := ih b
      refine ⟨?_, by omega, ?_⟩
      · rcases hmem with h2 | h2
        · right; rw [h2]; simp
        · right; exact List.mem_cons_of_mem b h2
      · intro y hy
        rcases List.mem_cons.mp hy with h2 | h2
        · subst h2; omega
        · exact hall y h2
    · rw [if_neg h]
      obtain ⟨hmem, hx, hall⟩ := ih x
      refine ⟨?_, hx, ?_⟩
      · rcases hmem with h2 | h2
        · left; exact h2
        · right; exact List.mem_cons_of_mem b h2
      · intro y hy
        rcases List.mem_cons.mp hy with h2 | h2
        · subst h2; omega
        · exact hall y h2

theorem pymaxByCreated_spec {l : List Build} {m : Build}
    (hm : pymaxByCreated l = some m) :
    m ∈ l ∧ ∀ y ∈ l, y.created_at ≤ m.created_at := by
  cases l with
  | nil => simp [pymaxByCreated] at hm
  | cons b bs =>
    rw [pymaxByCreated, Option.some.injEq] at hm
    obtain ⟨hmem, hb, hall⟩ := foldl_maxByCreated bs b
    rw [hm] at hmem hb hall
    constructor
    · rcases hmem with h | h
      · rw [h]; simp
      · exact List.mem_cons_of_mem b h
    · intro y hy
      rcases List.mem_cons.mp hy with h | h
      · subst h; omega
      · exact hall y h

end GuiFlasher

theorem mem_filter_supported {builds : List Build} {hv : String} {b : Build} :
    b ∈ builds.filter (fun x => x.supported_versions.contains hv) ↔
      b ∈ builds ∧ hv ∈ b.supported_versions := by
  rw [List.mem_filter]
  simp

/-- C6: both `gui_flasher.download_firmware` and
`auto_flasher.find_build_for_version` select, among exactly the builds
whose supported-version list contains the target version string
verbatim, a build with the greatest creation timestamp; in particular,
of two compatible builds the later-created one is selected. -/
theorem build_selection_latest_compatible (builds : List Build) (hv : String)
    (B : Build) :
    (GuiFlasher.download_firmware_selection builds hv = some B →
      B ∈ builds ∧ hv ∈ B.supported_versions ∧
      ∀ b ∈ builds, hv ∈ b.supported_versions → b.created_at ≤ B.created_at) ∧
    (AutoFlasher.find_build_for_version builds hv = some B →
      B ∈ builds ∧ hv ∈ B.supported_versions ∧
      ∀ b ∈ builds, hv ∈ b.supported_versions → b.created_at ≤ B.created_at) := by
  constructor
  · intro h
    rw [GuiFlasher.download_firmware_selection] at h
    split at h
    · exact absurd h (by simp)
    · obtain ⟨hmem, hmax⟩ := GuiFlasher.pymaxByCreated_spec h
      obtain ⟨hB, hBv⟩ := mem_filter_supported.mp hmem
      refine ⟨hB, hBv, ?_⟩
      intro b hb hbv
      exact hmax b (mem_filter_supported.mpr ⟨hb, hbv⟩)
  · intro h
    rw [AutoFlasher.find_build_for_version] at h
    split at h
    · exact absurd h (by simp)
    · split at h
      · exact absurd h (by simp)
      · obtain ⟨hmem, hmax⟩ := AutoFlasher.sortByDesc_head_max h
        obtain ⟨hB, hBv⟩ := mem_filter_supported.mp hmem
        refine ⟨hB, hBv, ?_⟩
        intro b hb hbv
        exact hmax b (mem_filter_supported.mpr ⟨hb, hbv⟩)

/-- C6 witness: two builds supporting 1.9.0, created at times 1 and 2;
both selectors pick the later one, which is maximal among compatible
builds. -/
theorem build_selection_latest_compatible_instance :
    (⟨2, "b2", 2, ["1.9.0"]⟩ : Build) ∈
        ([⟨1, "b1", 1, ["1.9.0"]⟩, ⟨2, "b2", 2, ["1.9.0"]⟩] : List Build) ∧
      "1.9.0" ∈ (⟨2, "b2", 2, ["1.9.0"]⟩ : Build).supported_versions ∧
      ∀ b ∈ ([⟨1, "b1", 1, ["1.9.0"]⟩, ⟨2, "b2", 2, ["1.9.0"]⟩] : List Build),
        "1.9.0" ∈ b.supported_versions →
          b.created_at ≤ (⟨2, "b2", 2, ["1.9.0"]⟩ : Build).created_at :=
  (build_selection_latest_compatible
    [⟨1, "b1", 1, ["1.9.0"]⟩, ⟨2, "b2", 2, ["1.9.0"]⟩] "1.9.0"
    ⟨2, "b2", 2, ["1.9.0"]⟩).1 (by decide)

namespace DinoConsole

/-- The vendor error substring indicating the USB path is locked by a
prior security-fuse burn. -/
def lockout_marker : String := "No serial data received"

/-- The failure diagnosis printed by `dino_console.flash_firmware` after
a nonzero esptool exit. -/
inductive FlashFail
  | usbLockout
  | stderrDetails (s : String)
  | stdoutDetails (s : String)
  | unknown
deriving DecidableEq

/-- Embedding of the exit handling of `dino_console.flash_firmware`
(identical in `flash_testing_firmware`): on a nonzero exit, report the
USB-lockout diagnosis when stderr is nonempty and contains the marker,
otherwise echo stderr, else stdout, else an unknown error; on a zero
exit report success.  The Bool is the function's return value. -/
def flash_firmware_outcome (returncode : Int) (stderr stdout : String) :
    Bool × Option FlashFail :=
  if returncode ≠ 0 then
    (false, some (
      if !stderr.isEmpty &&
          PyModel.containsSeq lockout_marker.data stderr.data then
        FlashFail.usbLockout
      else if !stderr.isEmpty then FlashFail.stderrDetails stderr
      else if !stdout.isEmpty then FlashFail.stdoutDetails stdout
      else FlashFail.unknown))
  else (true, none)

end DinoConsole

namespace GuiFlasher

/-- The status line `gui_flasher.flash_device` logs once the esptool
subprocess exits.  It merges stderr into stdout and never inspects the
output content for the failure report: a nonzero exit always yields the
generic exit-code message. -/
def flash_device_status (returncode : Int) (combinedOutput : String) : String :=
  if returncode ≠ 0 then
    "[X] Flash failed with exit code " ++ PyModel.intStr returncode ++ "."
  else "[OK] Flash successful!"

end GuiFlasher

/-- C8 counterexample: the claim requires every flash invocation in the
provisioning workflow to remap a nonzero exit whose error output
contains "No serial data received" to the USB-lockout message, but
`gui_flasher.flash_device` (a cited source) reports the generic
exit-code failure even when its combined output contains the marker. -/
theorem gui_flash_ignores_lockout_marker :
    PyModel.containsSeq DinoConsole.lockout_marker.data
        ("A fatal error occurred: No serial data received." : String).data = true ∧
    GuiFlasher.flash_device_status 2
        "A fatal error occurred: No serial data received." =
      "[X] Flash failed with exit code " ++ PyModel.intStr 2 ++ "." ∧
    ∀ s : String, GuiFlasher.flash_device_status 2 s =
      GuiFlasher.flash_device_status 2 "" := by
  refine ⟨by decide, by rw [GuiFlasher.flash_device_status]; simp, ?_⟩
  intro s
  rw [GuiFlasher.flash_device_status, GuiFlasher.flash_device_status]

/-- C8 (amended): in `dino_console.flash_firmware` (and its testing
variant) a nonzero esptool exit with nonempty stderr containing
"No serial data received" is reported as the USB-lockout diagnosis, and
any other nonzero exit is reported as one of the generic failure
diagnoses; `gui_flasher.flash_device`, by contrast, merges stderr into
stdout and always reports the generic exit-code message on a nonzero
exit, regardless of the output's content. -/
theorem flash_error_reporting (rc : Int) (err out s : String) :
    (rc ≠ 0 → err ≠ "" →
      PyModel.containsSeq DinoConsole.lockout_marker.data err.data = true →
      DinoConsole.flash_firmware_outcome rc err out =
        (false, some DinoConsole.FlashFail.usbLockout)) ∧
    (rc ≠ 0 →
      (err = "" ∨
        PyModel.containsSeq DinoConsole.lockout_marker.data err.data = false) →
      ∃ d, DinoConsole.flash_firmware_outcome rc err out = (false, some d) ∧
        d ≠ DinoConsole.FlashFail.usbLockout) ∧
    (rc = 0 → DinoConsole.flash_firmware_outcome rc err out = (true, none)) ∧
    (rc ≠ 0 → GuiFlasher.flash_device_status rc s =
      "[X] Flash failed with exit code " ++ PyModel.intStr rc ++ ".") := by
  refine ⟨?_, ?_, ?_, ?_⟩
  · intro hrc herr hmark
    rw [DinoConsole.flash_firmware_outcome, if_pos hrc]
    have hie : err.isEmpty = false := by
      rw [← Bool.not_eq_true, String.isEmpty_iff]
      exact herr
    rw [if_pos (by rw [hmark, hie]; rfl)]
  · intro hrc hcase
    rw [DinoConsole.flash_firmware_outcome, if_pos hrc]
    have hneg : ¬(!err.isEmpty &&
        PyModel.containsSeq DinoConsole.lockout_marker.data err.data) = true := by
      rcases hcase with h | h
      · simp [String.isEmpty_iff, h]
      · simp [h]
    rw [if_neg hneg]
    by_cases he : (!err.isEmpty) = true
    · exact ⟨DinoConsole.FlashFail.stderrDetails err, by rw [if_pos he], by simp⟩
    · rw [if_neg he]
      by_cases ho : (!out.isEmpty) = true
      · exact ⟨DinoConsole.FlashFail.stdoutDetails out, by rw [if_pos ho], by simp⟩
      · exact ⟨DinoConsole.FlashFail.unknown, by rw [if_neg ho], by simp⟩
  · intro hrc
    rw [DinoConsole.flash_firmware_outcome, if_neg (by omega)]
  · intro hrc
    rw [GuiFlasher.flash_device_status, if_pos hrc]

/-- C8 witness: an esptool exit code 2 with the lockout marker on
stderr is diagnosed as USB lockout by the console flasher, while the
GUI flasher reports the generic message for the very same outcome. -/
theorem flash_error_reporting_instance :
    DinoConsole.flash_firmware_outcome 2
        "A fatal error occurred: No serial data received." "" =
      (false, some DinoConsole.FlashFail.usbLockout) ∧
    GuiFlasher.flash_device_status 2
        "A fatal error occurred: No serial data received." =
      "[X] Flash failed with exit code " ++ PyModel.intStr 2 ++ "." :=
  ⟨(flash_error_reporting 2 "A fatal error occurred: No serial data received."
      "" "").1 (by decide) (by decide) (by decide),
   (flash_error_reporting 2 "" ""
      "A fatal error occurred: No serial data received.").2.2.2 (by decide)⟩

namespace GuiFlasher

/-- One loop iteration's environment in
`gui_flasher.serial_monitor_thread` (identical in `partner_flasher`):
the stop event is set; bytes are waiting and a line is read; a
SerialException is raised during the read path; or the port is idle and
is (or is not) still present in the OS port enumeration. -/
inductive MonIn
  | stopSet
  | recv (line : String)
  | recvErr
  | idle (present : Bool)
deriving DecidableEq

/-- How the monitor loop terminated.  Every constructor is a normal
return to the caller: the loop catches SerialException internally, so
no input sequence makes it propagate an exception. -/
inductive MonExit
  | stopped
  | disconnected
  | ranOut
deriving DecidableEq

/-- Embedding of the `serial_monitor_thread` loop over a finite trace
of per-iteration environments: a set stop event exits via the normal
while-condition; received lines are logged and the loop continues; a
SerialException or an idle poll with the port gone breaks out of the
loop; an idle poll with the port present continues. -/
def monitor_run : List MonIn → MonExit
  | [] => MonExit.ranOut
  | MonIn.stopSet :: _ => MonExit.stopped
  | MonIn.recv _ :: rest => monitor_run rest
  | MonIn.recvErr :: _ => MonExit.disconnected
  | MonIn.idle true :: rest => monitor_run rest
  | MonIn.idle false :: _ => MonExit.disconnected

/-- An iteration input on which the monitor keeps looping. -/
def MonIn.continues : MonIn → Bool
  | MonIn.recv _ => true
  | MonIn.idle true => true
  | _ => false

end GuiFlasher

/-- C9: after any run of iterations that keep the monitor looping
(received lines or idle polls with the port present), the first idle
poll that finds the port missing from the enumeration makes the monitor
return to its caller with the disconnect outcome, and a SerialException
raised mid-read does the same; neither propagates past the loop. -/
theorem monitor_disconnect_clean_exit (pre rest : List GuiFlasher.MonIn)
    (hpre : ∀ e ∈ pre, e.continues = true) :
    GuiFlasher.monitor_run (pre ++ GuiFlasher.MonIn.idle false :: rest) =
      GuiFlasher.MonExit.disconnected ∧
    GuiFlasher.monitor_run (pre ++ GuiFlasher.MonIn.recvErr :: rest) =
      GuiFlasher.MonExit.disconnected := by
  induction pre with
  | nil => exact ⟨rfl, rfl⟩
  | cons e es ih =>
    have he := hpre e (by simp)
    have hrec := ih (by intro x hx; exact hpre x (by simp [hx]))
    cases e with
    | stopSet => exact absurd he (by simp [GuiFlasher.MonIn.continues])
    | recv line => simpa [GuiFlasher.monitor_run] using hrec
    | recvErr => exact absurd he (by simp [GuiFlasher.MonIn.continues])
    | idle present =>
      cases present with
      | false => exact absurd he (by simp [GuiFlasher.MonIn.continues])
      | true => simpa [GuiFlasher.monitor_run] using hrec

/-- C9 witness: a monitor that logs one line and one idle present poll,
then sees the port vanish, exits with the disconnect outcome. -/
theorem monitor_disconnect_clean_exit_instance :
    GuiFlasher.monitor_run [GuiFlasher.MonIn.recv "boot ok",
      GuiFlasher.MonIn.idle true, GuiFlasher.MonIn.idle false] =
      GuiFlasher.MonExit.disconnected :=
  (monitor_disconnect_clean_exit
    [GuiFlasher.MonIn.recv "boot ok", GuiFlasher.MonIn.idle true] []
    (by decide)).1

namespace GuiFlasher

/-- State of the `scanner_worker` poll loop: the set of known ports and
the log of ports for which a session worker has been spawned, in
order. -/
structure ScanState where
  known : Finset String
  spawned : List String

/-- One iteration of `scanner_worker` (identical in `partner_flasher`),
given the currently enumerated ports.  When new ports exist, exactly
one (an arbitrary element, supplied by `choose`, modelling Python
`set.pop()`) is taken, added to the known set and spawned; afterwards
ports that disappeared are dropped from the known set, which therefore
becomes the intersection with the current enumeration. -/
def scanStep (choose : Finset String → String) (st : ScanState)
    (current : Finset String) : ScanState :=
  if (current \ st.known).Nonempty then
    { known := insert (choose (current \ st.known)) st.known ∩ current,
      spawned := st.spawned ++ [choose (current \ st.known)] }
  else
    { known := st.known ∩ current, spawned := st.spawned }

/-- The poll loop over a finite sequence of enumeration snapshots. -/
def scanRun (choose : Finset String → String) (st : ScanState) :
    List (Finset String) → ScanState
  | [] => st
  | c :: cs => scanRun choose (scanStep choose st c) cs

/-- A concrete executable choice function standing in for `set.pop()`. -/
def chooseMin (s : Finset String) : String :=
  if h : s.Nonempty then s.min' h else ""

theorem chooseMin_mem : ∀ s : Finset String, s.Nonempty → chooseMin s ∈ s := by
  intro s hs
  rw [chooseMin, dif_pos hs]
  exact s.min'_mem hs

theorem scanRun_cons (choose : Finset String → String) (st : ScanState)
    (c : Finset String) (cs : List (Finset String)) :
    scanRun choose st (c :: cs) = scanRun choose (scanStep choose st c) cs := rfl

theorem scanStep_pos (choose : Finset String → String) {st : ScanState}
    {current : Finset String} (h : (current \ st.known).Nonempty) :
    scanStep choose st current =
      { known := insert (choose (current \ st.known)) st.known ∩ current,
        spawned := st.spawned ++ [choose (current \ st.known)] } := by
  rw [scanStep, if_pos h]

theorem scanStep_neg (choose : Finset String → String) {st : ScanState}
    {current : Finset String} (h : ¬(current \ st.known).Nonempty) :
    scanStep choose st current =
      { known := st.known ∩ current, spawned := st.spawned } := by
  rw [scanStep, if_neg h]

theorem count_append_single_ne {l : List String} {p q : String} (h : p ≠ q) :
    (l ++ [p]).count q = l.count q := by
  rw [List.count_append]
  simp [List.count_singleton']
  intro he
  exact absurd he h

theorem count_append_single_eq {l : List String} {q : String} :
    (l ++ [q]).count q = l.count q + 1 := by
  rw [List.count_append]
  simp

theorem scanStep_known (choose : Finset String → String)
    (hchoose : ∀ s : Finset String, s.Nonempty → choose s ∈ s)
    {st : ScanState} {current : Finset String} {q : String}
    (hqc : q ∈ current) (hqk : q ∈ st.known) :
    q ∈ (scanStep choose st current).known ∧
    (scanStep choose st current).spawned.count q = st.spawned.count q := by
  by_cases h : (current \ st.known).Nonempty
  · rw [scanStep_pos choose h]
    have hp := hchoose _ h
    have hpq : choose (current \ st.known) ≠ q := by
      intro he
      rw [he] at hp
      exact (Finset.mem_sdiff.mp hp).2 hqk
    constructor
    · exact Finset.mem_inter.mpr ⟨Finset.mem_insert.mpr (Or.inr hqk), hqc⟩
    · exact count_append_single_ne hpq
  · rw [scanStep_neg choose h]
    exact ⟨Finset.mem_inter.mpr ⟨hqk, hqc⟩, rfl⟩

theorem scanStep_unknown (choose : Finset String → String)
    {st : ScanState} {current : Finset String} {q : String}
    (hqc : q ∈ current) (hqk : q ∉ st.known) :
    (choose (current \ st.known) = q →
      q ∈ (scanStep choose st current).known ∧
      (scanStep choose st current).spawned.count q = st.spawned.count q + 1) ∧
    (choose (current \ st.known) ≠ q →
      q ∉ (scanStep choose st current).known ∧
      (scanStep choose st current).spawned.count q = st.spawned.count q) := by
  have hne : (current \ st.known).Nonempty :=
    ⟨q, Finset.mem_sdiff.mpr ⟨hqc, hqk⟩⟩
  rw [scanStep_pos choose hne]
  constructor
  · intro hpq
    constructor
    · exact Finset.mem_inter.mpr ⟨Finset.mem_insert.mpr (Or.inl hpq.symm), hqc⟩
    · rw [hpq]
      exact count_append_single_eq
  · intro hpq
    constructor
    · intro hmem
      rcases Finset.mem_insert.mp (Finset.mem_inter.mp hmem).1 with h2 | h2
      · exact hpq h2.symm
      · exact hqk h2
    · exact count_append_single_ne hpq

/-- Invariant of the poll loop for a port `q` present in every poll:
once `q` is known it stays known and is never spawned again, and while
unknown it is spawned at most once, entering the known set exactly when
it is spawned. -/
theorem scanRun_count_invariant (choose : Finset String → String)
    (hchoose : ∀ s : Finset String, s.Nonempty → choose s ∈ s) (q : String) :
    ∀ (polls : List (Finset String)) (st : ScanState), (∀ c ∈ polls, q ∈ c) →
      (q ∈ st.known →
        q ∈ (scanRun choose st polls).known ∧
        (scanRun choose st polls).spawned.count q = st.spawned.count q) ∧
      (q ∉ st.known →
        (q ∈ (scanRun choose st polls).known ∧
          (scanRun choose st polls).spawned.count q = st.spawned.count q + 1) ∨
        (q ∉ (scanRun choose st polls).known ∧
          (scanRun choose st polls).spawned.count q = st.spawned.count q)) := by
  intro polls
  induction polls with
  | nil =>
    intro st hq
    exact ⟨fun h => ⟨h, rfl⟩, fun h => Or.inr ⟨h, rfl⟩⟩
  | cons c cs ih =>
    intro st hq
    have hqc : q ∈ c := hq c (by simp)
    have hqcs : ∀ x ∈ cs, q ∈ x := by
      intro x hx
      exact hq x (by simp [hx])
    constructor
    · intro hqk
      obtain ⟨hk1, hc1⟩ := scanStep_known choose hchoose hqc hqk
      obtain ⟨hk2, hc2⟩ := (ih (scanStep choose st c) hqcs).1 hk1
      exact ⟨hk2, by rw [scanRun_cons, hc2, hc1]⟩
    · intro hqk
      by_cases hpq : choose (c \ st.known) = q
      · obtain ⟨hk1, hc1⟩ := (scanStep_unknown choose hqc hqk).1 hpq
        obtain ⟨hk2, hc2⟩ := (ih (scanStep choose st c) hqcs).1 hk1
        exact Or.inl ⟨hk2, by rw [scanRun_cons, hc2, hc1]⟩
      · obtain ⟨hk1, hc1⟩ := (scanStep_unknown choose hqc hqk).2 hpq
        rcases (ih (scanStep choose st c) hqcs).2 hk1 with ⟨hk2, hc2⟩ | ⟨hk2, hc2⟩
        · exact Or.inl ⟨hk2, by rw [scanRun_cons, hc2, hc1]⟩
        · exact Or.inr ⟨hk2, by rw [scanRun_cons, hc2, hc1]⟩

end GuiFlasher

/-- C7: the watcher never spawns two sessions for the same port while
it stays connected.  For any poll sequence in which port q is present
throughout and initially unknown, at most one session is spawned for q;
and in the concrete two-poll scenario in which q appears as the only
new port and is still present at the next poll, exactly one session is
spawned, because q enters the known set when its worker starts and is
only removed when it disappears from the enumeration. -/
theorem scanner_single_session_per_port (choose : Finset String → String)
    (hchoose : ∀ s : Finset String, s.Nonempty → choose s ∈ s)
    (q : String) (known0 : Finset String) :
    (∀ polls : List (Finset String), (∀ c ∈ polls, q ∈ c) → q ∉ known0 →
      (GuiFlasher.scanRun choose ⟨known0, []⟩ polls).spawned.count q ≤ 1) ∧
    (∀ c1 c2 : Finset String, q ∈ c1 → q ∈ c2 → c1 \ known0 = {q} →
      (GuiFlasher.scanRun choose ⟨known0, []⟩ [c1, c2]).spawned.count q = 1) := by
  constructor
  · intro polls hq hk
    rcases (GuiFlasher.scanRun_count_invariant choose hchoose q polls
        ⟨known0, []⟩ hq).2 hk with ⟨_, hc⟩ | ⟨_, hc⟩
    · rw [hc]; simp
    · rw [hc]; simp
  · intro c1 c2 hq1 hq2 hnew
    have hk : q ∉ known0 := by
      have : q ∈ c1 \ known0 := by rw [hnew]; simp
      exact (Finset.mem_sdiff.mp this).2
    have hall : ∀ x, x ∈ c1 \ known0 → x = q := by
      intro x hx
      rw [hnew] at hx
      simpa using hx
    have hpq : choose (c1 \ (GuiFlasher.ScanState.mk known0 []).known) = q :=
      hall _ (hchoose (c1 \ known0) (by rw [hnew]; simp))
    obtain ⟨hk1, hc1⟩ := (GuiFlasher.scanStep_unknown choose hq1 hk).1 hpq
    have hstep : GuiFlasher.scanRun choose ⟨known0, []⟩ [c1, c2] =
        GuiFlasher.scanRun choose
          (GuiFlasher.scanStep choose ⟨known0, []⟩ c1) [c2] := rfl
    rw [hstep]
    obtain ⟨_, hc2⟩ := (GuiFlasher.scanRun_count_invariant choose hchoose q [c2]
        (GuiFlasher.scanStep choose ⟨known0, []⟩ c1)
        (by intro x hx; simp at hx; rw [hx]; exact hq2)).1 hk1
    rw [hc2, hc1]
    simp

/-- C7 witness: the same port injected as present in two successive
polls, as the only new port, yields exactly one spawned session, using
the minimum-element chooser as the concrete `set.pop()`. -/
theorem scanner_single_session_per_port_instance :
    (GuiFlasher.scanRun GuiFlasher.chooseMin ⟨∅, []⟩
        [{"COM3"}, {"COM3"}]).spawned.count "COM3" = 1 :=
  (scanner_single_session_per_port GuiFlasher.chooseMin GuiFlasher.chooseMin_mem
    "COM3" ∅).2 {"COM3"} {"COM3"} (by decide) (by decide) (by decide)

namespace GuiFlasher

theorem sdiff_insert_inter (current known : Finset String) (p : String) :
    current \ (insert p known ∩ current) = (current \ known).erase p := by
  ext x
  simp only [Finset.mem_sdiff, Finset.mem_inter, Finset.mem_insert, Finset.mem_erase]
  tauto

/-- Over a run of polls that all see the same enumeration, every port
that starts out unknown is spawned exactly once more, provided the run
is at least as long as the number of initially new ports: each
iteration absorbs exactly one new port. -/
theorem scanRun_services_all (choose : Finset String → String)
    (hchoose : ∀ s : Finset String, s.Nonempty → choose s ∈ s)
    (current : Finset String) :
    ∀ (n : Nat) (st : ScanState), (current \ st.known).card ≤ n →
      ∀ q ∈ current \ st.known,
        (scanRun choose st (List.replicate n current)).spawned.count q =
          st.spawned.count q + 1 := by
  intro n
  induction n with
  | zero =>
    intro st hcard q hq
    rw [Nat.le_zero] at hcard
    rw [Finset.card_eq_zero] at hcard
    rw [hcard] at hq
    exact absurd hq (Finset.not_mem_empty q)
  | succ n ih =>
    intro st hcard q hq
    obtain ⟨hqc, hqk⟩ := Finset.mem_sdiff.mp hq
    have hne : (current \ st.known).Nonempty := ⟨q, hq⟩
    have hp := hchoose _ hne
    rw [List.replicate_succ, scanRun_cons]
    have hstep := scanStep_pos choose hne
    have hnew : current \ (scanStep choose st current).known =
        (current \ st.known).erase (choose (current \ st.known)) := by
      rw [hstep]
      exact sdiff_insert_inter current st.known (choose (current \ st.known))
    by_cases hpq : choose (current \ st.known) = q
    · obtain ⟨hk1, hc1⟩ := (scanStep_unknown choose hqc hqk).1 hpq
      obtain ⟨_, hc2⟩ := (scanRun_count_invariant choose hchoose q
          (List.replicate n current) (scanStep choose st current)
          (by
            intro c hc
            rw [List.eq_of_mem_replicate hc]
            exact hqc)).1 hk1
      rw [hc2, hc1]
    · obtain ⟨hk1, hc1⟩ := (scanStep_unknown choose hqc hqk).2 hpq
      have hq2 : q ∈ current \ (scanStep choose st current).known := by
        rw [hnew]
        exact Finset.mem_erase.mpr ⟨fun h => hpq h.symm, hq⟩
      have hcard2 : (current \ (scanStep choose st current).known).card ≤ n := by
        rw [hnew]
        rw [Finset.card_erase_of_mem hp]
        omega
      rw [ih (scanStep choose st current) hcard2 q hq2, hc1]

end GuiFlasher

/-- C10: in any single poll iteration at most one session worker is
spawned, and when a spawn occurs the other simultaneously-new ports are
left out of the known set; consequently, over a run of at least as many
polls as there are new ports (all seeing the same enumeration), every
initially-unknown port is serviced exactly once. -/
theorem scanner_one_new_session_per_poll (choose : Finset String → String)
    (hchoose : ∀ s : Finset String, s.Nonempty → choose s ∈ s) :
    (∀ (st : GuiFlasher.ScanState) (current : Finset String),
      (GuiFlasher.scanStep choose st current).spawned.length ≤
        st.spawned.length + 1) ∧
    (∀ (st : GuiFlasher.ScanState) (current : Finset String),
      ∀ x ∈ current \ st.known, x ≠ choose (current \ st.known) →
        x ∉ (GuiFlasher.scanStep choose st current).known) ∧
    (∀ (current known0 : Finset String) (n : Nat),
      (current \ known0).card ≤ n →
      ∀ q ∈ current \ known0,
        (GuiFlasher.scanRun choose ⟨known0, []⟩
          (List.replicate n current)).spawned.count q = 1) := by
  refine ⟨?_, ?_, ?_⟩
  · intro st current
    by_cases h : (current \ st.known).Nonempty
    · rw [GuiFlasher.scanStep_pos choose h]
      simp
    · rw [GuiFlasher.scanStep_neg choose h]
      simp
  · intro st current x hx hne
    obtain ⟨hxc, hxk⟩ := Finset.mem_sdiff.mp hx
    rw [GuiFlasher.scanStep_pos choose ⟨x, hx⟩]
    intro hmem
    rcases Finset.mem_insert.mp (Finset.mem_inter.mp hmem).1 with h2 | h2
    · exact hne h2
    · exact hxk h2
  · intro current known0 n hcard q hq
    rw [GuiFlasher.scanRun_services_all choose hchoose current n ⟨known0, []⟩
      hcard q hq]
    rfl

/-- C10 witness: two ports appear simultaneously on an empty known set;
after two polls of the same enumeration each has been serviced exactly
once (COM3 shown). -/
theorem scanner_one_new_session_per_poll_instance :
    (GuiFlasher.scanRun GuiFlasher.chooseMin ⟨∅, []⟩
        (List.replicate 2 ({"COM3", "COM4"} : Finset String))).spawned.count
      "COM3" = 1 :=
  (scanner_one_new_session_per_poll GuiFlasher.chooseMin
    GuiFlasher.chooseMin_mem).2.2 {"COM3", "COM4"} ∅ 2 (by decide) "COM3"
    (by decide)
